import Mathlib

/-!
Verification of the mutation-extraction and classification core of the
covid-classifier repository (`src/utils.py`).

Sequences are modelled as `List Char`; the gap symbol of an aligned
sequence is the character `'-'`.  Python's ordered `dict` catalogue of
lineage profiles is modelled as an association list in insertion order
(a genuine dict has pairwise distinct keys).  Fallible functions
(`extract_s_gene` raising `ValueError`, `classify_variant` crashing on
`max` over an empty dict) return `Option`.
-/

namespace CovidClassifier

/-- A mutation event as built by `find_mutations` in `utils.py`:
a `Substitution` dict `{position_ref, type, ref_base, var_base}`, an
`Insertion` dict `{position_ref_after, type, inserted_bases}`, or a
`Deletion` dict `{position_ref, type, deleted_ref_base}`.  The
`ref_base` / `deleted_ref_base` fields are `Option Char` because the
code stores Python `None` there when the original reference sequence is
too short (`original_ref_pos >= len(original_reference_seq)`). -/
inductive Mutation : Type
  | sub (position_ref : Nat) (ref_base : Option Char) (var_base : Char)
  | ins (position_ref_after : Nat) (inserted_bases : Char)
  | del (position_ref : Nat) (deleted_ref_base : Option Char)
  deriving DecidableEq, Repr

/-- The values appearing in a mutation dict: Python ints, strings,
single characters, and `None`. -/
inductive PyVal : Type
  | pint (n : Nat)
  | pstr (s : String)
  | pchar (c : Char)
  | pnone
  deriving DecidableEq, Repr

/-- Encoding of an optional base field value (`None` or a base). -/
def optV : Option Char → PyVal
  | some c => PyVal.pchar c
  | none => PyVal.pnone

/-- `sig(m) = tuple(sorted(m.items()))` from `count_matching_mutations`
in `utils.py`: the dict items of each mutation record, sorted by key
(`position_ref < ref_base < type < var_base`,
`inserted_bases < position_ref_after < type`,
`deleted_ref_base < position_ref < type`). -/
def sig : Mutation → List (String × PyVal)
  | Mutation.sub p rb vb =>
      [("position_ref", PyVal.pint p), ("ref_base", optV rb),
       ("type", PyVal.pstr "Substitution"), ("var_base", PyVal.pchar vb)]
  | Mutation.ins p ib =>
      [("inserted_bases", PyVal.pchar ib),
       ("position_ref_after", PyVal.pint p), ("type", PyVal.pstr "Insertion")]
  | Mutation.del p db =>
      [("deleted_ref_base", optV db), ("position_ref", PyVal.pint p),
       ("type", PyVal.pstr "Deletion")]

/-- The body of the column loop of `find_mutations` (`utils.py`
lines 72-101): given the original reference, the running original
reference position and the two aligned characters of one column,
the mutation dict appended for that column, if any. -/
def mutationAtColumn (orig : List Char) (pos : Nat) (rb vb : Char) :
    Option Mutation :=
  let original_ref_base : Option Char := if rb ≠ '-' then orig[pos]? else none
  if rb ≠ vb then
    if rb ≠ '-' ∧ vb ≠ '-' then
      some (Mutation.sub (pos + 1) original_ref_base vb)
    else if rb = '-' ∧ vb ≠ '-' then
      some (Mutation.ins pos vb)
    else if rb ≠ '-' ∧ vb = '-' then
      some (Mutation.del (pos + 1) original_ref_base)
    else none
  else none

/-- The column walk of `find_mutations`, recursing over the two aligned
sequences in step with the running counter `original_ref_pos`, which
advances exactly on columns whose reference side is not a gap. -/
def findMutationsFrom (orig : List Char) :
    List Char → List Char → Nat → List Mutation
  | rb :: rtl, vb :: vtl, pos =>
      (mutationAtColumn orig pos rb vb).toList ++
        findMutationsFrom orig rtl vtl (if rb ≠ '-' then pos + 1 else pos)
  | _, _, _ => []

/-- `find_mutations(reference_aligned_seq, variant_aligned_seq,
original_reference_seq)` from `utils.py`.  The Python loop runs over
`range(len(reference_aligned_seq))` indexing both aligned strings, so it
is faithful exactly on aligned pairs, i.e. when the two aligned
sequences have equal length (the Aligned Pair invariant assumed by every
theorem below). -/
def find_mutations (reference_aligned_seq variant_aligned_seq
    original_reference_seq : List Char) : List Mutation :=
  findMutationsFrom original_reference_seq
    reference_aligned_seq variant_aligned_seq 0

/-- The running original reference position of `find_mutations` on
arrival at column `i`: the number of non-gap characters among the
first `i` aligned reference characters. -/
def refPosAt (r : List Char) (i : Nat) : Nat :=
  (r.take i).countP (fun c => decide (c ≠ '-'))

/-- The event contributed by column `i` of the walk, with the running
counter expressed through `refPosAt`. -/
def colEv (r v orig : List Char) (i : Nat) : Option Mutation :=
  mutationAtColumn orig (refPosAt r i) (r.getD i '-') (v.getD i '-')

/-- The reference position carried by a `Substitution` or `Deletion`
event (`Insertion` events carry an anchor, not a position). -/
def mutPos : Mutation → Option Nat
  | Mutation.sub p _ _ => some p
  | Mutation.del p _ => some p
  | Mutation.ins _ _ => none

/-- `count_matching_mutations(a, b)` from `utils.py`: the cardinality of
the intersection of the two sets of signatures
`tuple(sorted(m.items()))`. -/
def count_matching_mutations (a b : List Mutation) : Nat :=
  ((a.map sig).toFinset ∩ (b.map sig).toFinset).card

/-- `extract_s_gene(full_seq, start, end)` from `utils.py` (defaults
`start=21563`, `end=25384`; `end` is a Lean keyword, renamed `stop`).
`full_seq[start-1:end]` is `drop (start-1)` then `take (end-(start-1))`;
the `ValueError` branch (`not full_seq or len(full_seq) < end`) is
`none`. -/
def extract_s_gene (full_seq : List Char) (start stop : Nat) :
    Option (List Char) :=
  let slice_start := start - 1
  let slice_end := stop
  if full_seq.length = 0 ∨ full_seq.length < slice_end then none
  else some ((full_seq.drop slice_start).take (slice_end - slice_start))

/-- The maximum per-lineage match count of `classify_variant`
(`best_score` in `utils.py`), over a catalogue given as an association
list in dict insertion order; `0` when the catalogue is empty. -/
def best_match_score (patient : List Mutation)
    (variant_profiles : List (String × List Mutation)) : Nat :=
  (variant_profiles.map
    (fun q => count_matching_mutations patient q.2)).foldl Nat.max 0

/-- The lineages achieving exactly the best score (`ties` in
`utils.py`), in catalogue iteration order. -/
def tied_lineages (patient : List Mutation)
    (variant_profiles : List (String × List Mutation)) : List String :=
  (variant_profiles.filter (fun q =>
    decide (count_matching_mutations patient q.2 =
      best_match_score patient variant_profiles))).map Prod.fst

/-- `classify_variant(patient_mutations, variant_profiles,
wuhan_like_threshold)` from `utils.py` (default threshold 3).  On a
non-empty patient list with an empty catalogue the Python code raises
(`max` of an empty dict), modelled as `none`.  `max(scores,
key=scores.get)` picks the first key achieving the maximum score, which
is the head of `ties`; with a single tie the returned label is exactly
that first best key. -/
def classify_variant (patient_mutations : List Mutation)
    (variant_profiles : List (String × List Mutation))
    (wuhan_like_threshold : Nat) : Option (String × Nat) :=
  if patient_mutations.isEmpty then some ("Wuhan-like (No mutations)", 0)
  else
    match variant_profiles with
    | [] => none
    | q0 :: qtl =>
      let scores := (q0 :: qtl).map
        (fun q => (q.1, count_matching_mutations patient_mutations q.2))
      let best_score := (scores.map Prod.snd).foldl Nat.max 0
      if best_score < wuhan_like_threshold then
        some ("Wuhan-like or Other (Low match)", best_score)
      else
        let ties := (scores.filter
          (fun q => decide (q.2 = best_score))).map Prod.fst
        if 1 < ties.length then
          some (String.intercalate " or " ties ++ " (tie)", best_score)
        else
          some (ties.headD "", best_score)

/-- Evaluating `sig` back: the `Option Char` stored in a base field. -/
def pyvalToOptChar : PyVal → Option Char
  | PyVal.pchar c => some c
  | _ => none

/-- Left inverse of `sig`, witnessing that distinct mutation records
always have distinct dict signatures. -/
def unsig : List (String × PyVal) → Option Mutation
  | [(_, PyVal.pint p), (_, rb), _, (_, PyVal.pchar vb)] =>
      some (Mutation.sub p (pyvalToOptChar rb) vb)
  | [(k, v1), (_, PyVal.pint p), _] =>
      if k = "inserted_bases" then
        match v1 with
        | PyVal.pchar ib => some (Mutation.ins p ib)
        | _ => none
      else some (Mutation.del p (pyvalToOptChar v1))
  | _ => none

theorem unsig_sig (m : Mutation) : unsig (sig m) = some m := by
  cases m with
  | sub p rb vb => cases rb <;> rfl
  | ins p ib => rfl
  | del p db => cases db <;> rfl

theorem sig_injective : Function.Injective sig := by
  intro m1 m2 h
  have h1 := unsig_sig m1
  rw [h, unsig_sig m2] at h1
  exact (Option.some.inj h1).symm

theorem filterMap_cons_toList {α β : Type _} (f : α → Option β) (a : α)
    (l : List α) :
    List.filterMap f (a :: l) = (f a).toList ++ List.filterMap f l := by
  cases h : f a <;> simp [List.filterMap_cons, h]

/-- The column walk unrolled: starting from counter `pos`, the output of
`findMutationsFrom` is, column by column in order, the event contributed
by each column, with the counter at column `i` being `pos` plus the
number of non-gap reference characters before column `i`. -/
theorem findMutationsFrom_eq_filterMap (orig r : List Char) :
    ∀ (v : List Char) (pos : Nat), r.length = v.length →
    findMutationsFrom orig r v pos =
      (List.range r.length).filterMap (fun i =>
        mutationAtColumn orig
          (pos + (r.take i).countP (fun c => decide (c ≠ '-')))
          (r.getD i '-') (v.getD i '-')) := by
  induction r with
  | nil => intro v pos h; simp [findMutationsFrom]
  | cons rb rtl ih =>
    intro v pos h
    cases v with
    | nil => simp at h
    | cons vb vtl =>
      simp only [List.length_cons]
      rw [List.range_succ_eq_map, filterMap_cons_toList, List.filterMap_map,
        findMutationsFrom]
      congr 1
      rw [ih vtl (if rb ≠ '-' then pos + 1 else pos) (by simpa using h)]
      congr 1
      funext i
      simp only [Function.comp_def, Nat.succ_eq_add_one, List.take_succ_cons,
        List.countP_cons, List.getD_cons_succ, List.getElem?_cons_succ]
      by_cases hrb : rb = '-'
      · subst hrb
        rfl
      · rw [if_pos hrb, if_pos (decide_eq_true hrb)]
        congr 1
        omega

/-- `find_mutations` on an aligned pair is exactly the in-order
concatenation of the per-column events `colEv`. -/
theorem find_mutations_eq_filterMap (r v orig : List Char)
    (h : r.length = v.length) :
    find_mutations r v orig =
      (List.range r.length).filterMap (colEv r v orig) := by
  unfold find_mutations
  rw [findMutationsFrom_eq_filterMap orig r v 0 h]
  congr 1
  funext i
  simp [colEv, refPosAt]

theorem filterMap_range_split {α : Type _} (f : Nat → Option α) {n i : Nat}
    (h : i < n) :
    (List.range n).filterMap f =
      (List.range i).filterMap f ++ (f i).toList ++
        (List.range (n - (i + 1))).filterMap (fun j => f (i + 1 + j)) := by
  conv_lhs => rw [show n = i + 1 + (n - (i + 1)) by omega]
  rw [List.range_add, List.filterMap_append, List.range_succ,
    List.filterMap_append, List.filterMap_map, filterMap_cons_toList]
  simp only [Function.comp_def, List.append_assoc, List.filterMap_nil,
    List.append_nil]

theorem mutationAtColumn_sub (orig : List Char) (pos : Nat) {rb vb : Char}
    (h1 : rb ≠ '-') (h2 : vb ≠ '-') (h3 : rb ≠ vb) :
    mutationAtColumn orig pos rb vb =
      some (Mutation.sub (pos + 1) orig[pos]? vb) := by
  simp [mutationAtColumn, h1, h2, h3]

theorem mutationAtColumn_ins (orig : List Char) (pos : Nat) {rb vb : Char}
    (h1 : rb = '-') (h2 : vb ≠ '-') :
    mutationAtColumn orig pos rb vb = some (Mutation.ins pos vb) := by
  subst h1
  simp [mutationAtColumn, h2, Ne.symm h2]

theorem mutationAtColumn_del (orig : List Char) (pos : Nat) {rb vb : Char}
    (h1 : rb ≠ '-') (h2 : vb = '-') :
    mutationAtColumn orig pos rb vb =
      some (Mutation.del (pos + 1) orig[pos]?) := by
  subst h2
  simp [mutationAtColumn, h1]

theorem list_toFinset_map {α β : Type _} [DecidableEq α] [DecidableEq β]
    (f : α → β) (l : List α) : (l.map f).toFinset = l.toFinset.image f := by
  ext x
  simp

/-- C6: `count_matching_mutations(A, B)` equals the number of distinct
events occurring in both lists, where two events are the same exactly
when their discriminant and all field values coincide (structural
equality of `Mutation`), duplicates within one list counting once. -/
theorem c6_count_matching_is_distinct_common (a b : List Mutation) :
    count_matching_mutations a b = (a.toFinset ∩ b.toFinset).card := by
  unfold count_matching_mutations
  rw [list_toFinset_map, list_toFinset_map,
    ← Finset.image_inter _ _ sig_injective,
    Finset.card_image_of_injective _ sig_injective]

/-- C5: on an empty candidate mutation list, `classify_variant` returns
the baseline-like label with match count 0, whatever the catalogue and
threshold. -/
theorem c5_empty_patient_baseline (variant_profiles :
    List (String × List Mutation)) (t : Nat) :
    classify_variant [] variant_profiles t =
      some ("Wuhan-like (No mutations)", 0) := rfl

/-- C8: for a 1-based inclusive range `[start, end]` within the
sequence, `extract_s_gene` returns exactly the covering substring, of
length `end - start + 1`, and splicing it back at the same offset
reproduces the sequence; when the sequence is shorter than `end`
(including an empty sequence) it fails instead of truncating. -/
theorem c8_extract_s_gene_slice (S : List Char) (s e : Nat) :
    (1 ≤ s → s ≤ e → e ≤ S.length →
      ∃ out, extract_s_gene S s e = some out ∧ out.length = e - s + 1 ∧
        S.take (s - 1) ++ out ++ S.drop e = S) ∧
    (S.length < e → extract_s_gene S s e = none) ∧
    (S = [] → extract_s_gene S s e = none) := by
  refine ⟨?_, ?_, ?_⟩
  · intro h1 h2 h3
    have hne : ¬(S.length = 0 ∨ S.length < e) := by omega
    refine ⟨(S.drop (s - 1)).take (e - (s - 1)), ?_, ?_, ?_⟩
    · simp only [extract_s_gene, if_neg hne]
    · rw [List.length_take, List.length_drop]
      omega
    · have h4 := List.take_append_drop (e - (s - 1)) (S.drop (s - 1))
      have h5 : (S.drop (s - 1)).drop (e - (s - 1)) = S.drop e := by
        rw [List.drop_drop]
        congr 1
        omega
      rw [List.append_assoc, ← h5, h4, List.take_append_drop]
  · intro hlt
    simp [extract_s_gene, hlt]
  · intro hS
    subst hS
    simp [extract_s_gene]

theorem c8_extract_s_gene_slice_witness :
    ∃ out, extract_s_gene "ABCDE".toList 2 4 = some out ∧
      out.length = 4 - 2 + 1 ∧
      "ABCDE".toList.take (2 - 1) ++ out ++ "ABCDE".toList.drop 4 =
        "ABCDE".toList :=
  (c8_extract_s_gene_slice "ABCDE".toList 2 4).1 (by decide) (by decide)
    (by decide)

/-- C9: with a non-empty candidate list and an empty catalogue,
`classify_variant` produces no Classification Result (the Python code
raises on `max` over zero scores, modelled as `none`); with at least one
lineage in the catalogue it always produces a result. -/
theorem c9_empty_catalogue_errors (patient : List Mutation) (t : Nat)
    (h : patient ≠ []) :
    classify_variant patient [] t = none ∧
    ∀ variant_profiles : List (String × List Mutation),
      variant_profiles ≠ [] →
      (classify_variant patient variant_profiles t).isSome = true := by
  have hne : patient.isEmpty = false := by
    cases patient with
    | nil => exact absurd rfl h
    | cons a l => rfl
  constructor
  · simp [classify_variant, hne]
  · intro variant_profiles hp
    obtain ⟨q, qs, rfl⟩ := List.exists_cons_of_ne_nil hp
    simp only [classify_variant, hne, Bool.false_eq_true, if_false]
    split
    · rfl
    · split <;> rfl

theorem c9_empty_catalogue_errors_witness :
    classify_variant [Mutation.ins 0 'A'] [] 3 = none ∧
    ∀ variant_profiles : List (String × List Mutation),
      variant_profiles ≠ [] →
      (classify_variant [Mutation.ins 0 'A'] variant_profiles 3).isSome =
        true :=
  c9_empty_catalogue_errors [Mutation.ins 0 'A'] 3 (by decide)

theorem getElem?_eq_some_getD {α : Type _} {l : List α} {p : Nat} (d : α)
    (hp : p < l.length) : l[p]? = some (l.getD p d) := by
  rw [List.getD_eq_getElem?_getD, List.getElem?_eq_getElem hp]
  rfl

/-- C1: at a column of the aligned pair where both sides are non-gap and
differ, `find_mutations` emits, between the contributions of the earlier
and later columns, a Substitution at the pre-increment running reference
position plus one, whose reference base is the character of the original
ungapped reference at that position and whose variant base is the
aligned variant character of the column. -/
theorem c1_substitution_event (r v orig : List Char)
    (hlen : r.length = v.length) (i : Nat) (hi : i < r.length)
    (hr : r.getD i '-' ≠ '-') (hv : v.getD i '-' ≠ '-')
    (hne : r.getD i '-' ≠ v.getD i '-')
    (hp : refPosAt r i < orig.length) :
    find_mutations r v orig =
      (List.range i).filterMap (colEv r v orig) ++
        Mutation.sub (refPosAt r i + 1)
          (some (orig.getD (refPosAt r i) '-')) (v.getD i '-') ::
        (List.range (r.length - (i + 1))).filterMap
          (fun j => colEv r v orig (i + 1 + j)) := by
  rw [find_mutations_eq_filterMap r v orig hlen, filterMap_range_split _ hi]
  have hcol : colEv r v orig i =
      some (Mutation.sub (refPosAt r i + 1)
        (some (orig.getD (refPosAt r i) '-')) (v.getD i '-')) := by
    rw [colEv, mutationAtColumn_sub orig _ hr hv hne,
      getElem?_eq_some_getD '-' hp]
  rw [hcol]
  simp [List.append_assoc]

theorem c1_substitution_event_witness :
    find_mutations "ACG".toList "ATG".toList "ACG".toList =
      (List.range 1).filterMap
        (colEv "ACG".toList "ATG".toList "ACG".toList) ++
        Mutation.sub (refPosAt "ACG".toList 1 + 1)
          (some ("ACG".toList.getD (refPosAt "ACG".toList 1) '-'))
          ("ATG".toList.getD 1 '-') ::
        (List.range ("ACG".toList.length - (1 + 1))).filterMap
          (fun j => colEv "ACG".toList "ATG".toList "ACG".toList
            (1 + 1 + j)) :=
  c1_substitution_event "ACG".toList "ATG".toList "ACG".toList (by decide)
    1 (by decide) (by decide) (by decide) (by decide) (by decide)

/-- C2: at a column where exactly one side is a gap, `find_mutations`
emits an Insertion anchored at the current reference position (count of
reference bases consumed so far) carrying the variant base when the
reference side is the gap, and a Deletion at the current reference
position plus one carrying the original reference base when the variant
side is the gap; the position counter advances across a column exactly
when its reference side is non-gap. -/
theorem c2_indel_events (r v orig : List Char)
    (hlen : r.length = v.length) (i : Nat) (hi : i < r.length) :
    (r.getD i '-' = '-' → v.getD i '-' ≠ '-' →
      find_mutations r v orig =
        (List.range i).filterMap (colEv r v orig) ++
          Mutation.ins (refPosAt r i) (v.getD i '-') ::
          (List.range (r.length - (i + 1))).filterMap
            (fun j => colEv r v orig (i + 1 + j))) ∧
    (r.getD i '-' ≠ '-' → v.getD i '-' = '-' →
      refPosAt r i < orig.length →
      find_mutations r v orig =
        (List.range i).filterMap (colEv r v orig) ++
          Mutation.del (refPosAt r i + 1)
            (some (orig.getD (refPosAt r i) '-')) ::
          (List.range (r.length - (i + 1))).filterMap
            (fun j => colEv r v orig (i + 1 + j))) ∧
    refPosAt r (i + 1) =
      refPosAt r i + (if r.getD i '-' = '-' then 0 else 1) := by
  refine ⟨?_, ?_, ?_⟩
  · intro hgap hv
    rw [find_mutations_eq_filterMap r v orig hlen, filterMap_range_split _ hi]
    have hcol : colEv r v orig i =
        some (Mutation.ins (refPosAt r i) (v.getD i '-')) := by
      rw [colEv, mutationAtColumn_ins orig _ hgap hv]
    rw [hcol]
    simp [List.append_assoc]
  · intro hr hgap hp
    rw [find_mutations_eq_filterMap r v orig hlen, filterMap_range_split _ hi]
    have hcol : colEv r v orig i =
        some (Mutation.del (refPosAt r i + 1)
          (some (orig.getD (refPosAt r i) '-'))) := by
      rw [colEv, mutationAtColumn_del orig _ hr hgap,
        getElem?_eq_some_getD '-' hp]
    rw [hcol]
    simp [List.append_assoc]
  · rw [refPosAt, refPosAt, List.take_succ, List.countP_append,
      List.getElem?_eq_getElem hi]
    have hgd : r.getD i '-' = r[i] := by
      rw [List.getD_eq_getElem?_getD, List.getElem?_eq_getElem hi]
      rfl
    by_cases hg : r[i] = '-'
    · rw [if_pos (hgd.trans hg)]
      simp [hg]
    · rw [if_neg (fun hc => hg (hgd.symm.trans hc))]
      simp [hg]

theorem c2_indel_events_witness :
    ("AC-GT".toList.getD 2 '-' = '-' → "ACTG-".toList.getD 2 '-' ≠ '-' →
      find_mutations "AC-GT".toList "ACTG-".toList "ACGT".toList =
        (List.range 2).filterMap
          (colEv "AC-GT".toList "ACTG-".toList "ACGT".toList) ++
          Mutation.ins (refPosAt "AC-GT".toList 2)
            ("ACTG-".toList.getD 2 '-') ::
          (List.range ("AC-GT".toList.length - (2 + 1))).filterMap
            (fun j => colEv "AC-GT".toList "ACTG-".toList "ACGT".toList
              (2 + 1 + j))) ∧
    ("AC-GT".toList.getD 2 '-' ≠ '-' → "ACTG-".toList.getD 2 '-' = '-' →
      refPosAt "AC-GT".toList 2 < "ACGT".toList.length →
      find_mutations "AC-GT".toList "ACTG-".toList "ACGT".toList =
        (List.range 2).filterMap
          (colEv "AC-GT".toList "ACTG-".toList "ACGT".toList) ++
          Mutation.del (refPosAt "AC-GT".toList 2 + 1)
            (some ("ACGT".toList.getD (refPosAt "AC-GT".toList 2) '-')) ::
          (List.range ("AC-GT".toList.length - (2 + 1))).filterMap
            (fun j => colEv "AC-GT".toList "ACTG-".toList "ACGT".toList
              (2 + 1 + j))) ∧
    refPosAt "AC-GT".toList (2 + 1) =
      refPosAt "AC-GT".toList 2 +
        (if "AC-GT".toList.getD 2 '-' = '-' then 0 else 1) :=
  c2_indel_events "AC-GT".toList "ACTG-".toList "ACGT".toList (by decide)
    2 (by decide)

/-- C10: when the running reference position has passed the end of the
original reference sequence, the walk still emits Substitution and
Deletion events at their usual positions, but with `none` (Python
`None`) as the reference base, so no column makes `find_mutations`
fail. -/
theorem c10_short_reference_none_base (r v orig : List Char)
    (hlen : r.length = v.length) (i : Nat) (hi : i < r.length)
    (hout : orig.length ≤ refPosAt r i) (hr : r.getD i '-' ≠ '-') :
    (v.getD i '-' ≠ '-' → r.getD i '-' ≠ v.getD i '-' →
      find_mutations r v orig =
        (List.range i).filterMap (colEv r v orig) ++
          Mutation.sub (refPosAt r i + 1) none (v.getD i '-') ::
          (List.range (r.length - (i + 1))).filterMap
            (fun j => colEv r v orig (i + 1 + j))) ∧
    (v.getD i '-' = '-' →
      find_mutations r v orig =
        (List.range i).filterMap (colEv r v orig) ++
          Mutation.del (refPosAt r i + 1) none ::
          (List.range (r.length - (i + 1))).filterMap
            (fun j => colEv r v orig (i + 1 + j))) := by
  have hnone : orig[refPosAt r i]? = none := List.getElem?_eq_none hout
  constructor
  · intro hv hne
    rw [find_mutations_eq_filterMap r v orig hlen, filterMap_range_split _ hi]
    have hcol : colEv r v orig i =
        some (Mutation.sub (refPosAt r i + 1) none (v.getD i '-')) := by
      rw [colEv, mutationAtColumn_sub orig _ hr hv hne, hnone]
    rw [hcol]
    simp [List.append_assoc]
  · intro hgap
    rw [find_mutations_eq_filterMap r v orig hlen, filterMap_range_split _ hi]
    have hcol : colEv r v orig i =
        some (Mutation.del (refPosAt r i + 1) none) := by
      rw [colEv, mutationAtColumn_del orig _ hr hgap, hnone]
    rw [hcol]
    simp [List.append_assoc]

theorem c10_short_reference_none_base_witness :
    ("ACT".toList.getD 2 '-' ≠ '-' →
      "ACG".toList.getD 2 '-' ≠ "ACT".toList.getD 2 '-' →
      find_mutations "ACG".toList "ACT".toList "AC".toList =
        (List.range 2).filterMap
          (colEv "ACG".toList "ACT".toList "AC".toList) ++
          Mutation.sub (refPosAt "ACG".toList 2 + 1) none
            ("ACT".toList.getD 2 '-') ::
          (List.range ("ACG".toList.length - (2 + 1))).filterMap
            (fun j => colEv "ACG".toList "ACT".toList "AC".toList
              (2 + 1 + j))) ∧
    ("ACT".toList.getD 2 '-' = '-' →
      find_mutations "ACG".toList "ACT".toList "AC".toList =
        (List.range 2).filterMap
          (colEv "ACG".toList "ACT".toList "AC".toList) ++
          Mutation.del (refPosAt "ACG".toList 2 + 1) none ::
          (List.range ("ACG".toList.length - (2 + 1))).filterMap
            (fun j => colEv "ACG".toList "ACT".toList "AC".toList
              (2 + 1 + j))) :=
  c10_short_reference_none_base "ACG".toList "ACT".toList "AC".toList
    (by decide) 2 (by decide) (by decide) (by decide)

theorem mutationAtColumn_filterMap_mutPos (orig : List Char) (pos : Nat)
    (rb vb : Char) :
    (mutationAtColumn orig pos rb vb).toList.filterMap mutPos = [] ∨
    ((mutationAtColumn orig pos rb vb).toList.filterMap mutPos =
      [pos + 1] ∧ rb ≠ '-') := by
  by_cases h1 : rb = vb
  · left
    simp [mutationAtColumn, h1]
  · by_cases h2 : rb = '-'
    · by_cases h3 : vb = '-'
      · exact absurd (h2.trans h3.symm) h1
      · left
        rw [mutationAtColumn_ins orig pos h2 h3]
        rfl
    · by_cases h3 : vb = '-'
      · refine Or.inr ⟨?_, h2⟩
        rw [mutationAtColumn_del orig pos h2 h3]
        rfl
      · refine Or.inr ⟨?_, h2⟩
        rw [mutationAtColumn_sub orig pos h2 h3 h1]
        rfl

theorem findMutationsFrom_pos_sorted (orig : List Char) :
    ∀ (r v : List Char) (pos : Nat),
      ((findMutationsFrom orig r v pos).filterMap mutPos).Sorted (· ≤ ·) ∧
      ∀ q ∈ (findMutationsFrom orig r v pos).filterMap mutPos,
        pos + 1 ≤ q := by
  intro r
  induction r with
  | nil =>
    intro v pos
    simp [findMutationsFrom]
  | cons rb rtl ih =>
    intro v pos
    cases v with
    | nil => simp [findMutationsFrom]
    | cons vb vtl =>
      rw [findMutationsFrom, List.filterMap_append]
      have hpos : pos ≤ (if rb ≠ '-' then pos + 1 else pos) := by
        split <;> omega
      obtain ⟨ihs, ihb⟩ := ih vtl (if rb ≠ '-' then pos + 1 else pos)
      obtain hcase | ⟨hcase, hrb⟩ :=
        mutationAtColumn_filterMap_mutPos orig pos rb vb
      · simp only [hcase, List.nil_append]
        exact ⟨ihs, fun q hq => le_trans (by omega) (ihb q hq)⟩
      · have hpos1 : (if rb ≠ '-' then pos + 1 else pos) = pos + 1 :=
          if_pos hrb
        simp only [hcase, hpos1, List.singleton_append]
        rw [hpos1] at ihs ihb
        constructor
        · rw [List.sorted_cons]
          exact ⟨fun b hb => le_trans (Nat.le_succ _) (ihb b hb), ihs⟩
        · intro q hq
          rcases List.mem_cons.mp hq with hq | hq
          · omega
          · exact le_trans (Nat.le_succ _) (ihb q hq)

/-- C7: the reference positions carried by the Substitution and Deletion
events of `find_mutations`, in emission order, form a non-decreasing
sequence. -/
theorem c7_positions_monotone (r v orig : List Char) :
    ((find_mutations r v orig).filterMap mutPos).Sorted (· ≤ ·) :=
  (findMutationsFrom_pos_sorted orig r v 0).1

/-- On a non-empty patient list and non-empty catalogue,
`classify_variant` reduces to the threshold / tie decision over
`best_match_score` and `tied_lineages`. -/
theorem classify_variant_cons (patient : List Mutation)
    (q : String × List Mutation) (qs : List (String × List Mutation))
    (t : Nat) (hp : patient ≠ []) :
    classify_variant patient (q :: qs) t =
      if best_match_score patient (q :: qs) < t then
        some ("Wuhan-like or Other (Low match)",
          best_match_score patient (q :: qs))
      else if 1 < (tied_lineages patient (q :: qs)).length then
        some (String.intercalate " or " (tied_lineages patient (q :: qs)) ++
          " (tie)", best_match_score patient (q :: qs))
      else
        some ((tied_lineages patient (q :: qs)).headD "",
          best_match_score patient (q :: qs)) := by
  have hne : patient.isEmpty = false := by
    cases patient with
    | nil => exact absurd rfl hp
    | cons a l => rfl
  have hbest :
      (((q :: qs).map (fun p =>
        (p.1, count_matching_mutations patient p.2))).map Prod.snd).foldl
          Nat.max 0 = best_match_score patient (q :: qs) := by
    rw [best_match_score, List.map_map]
    rfl
  have hties :
      (((q :: qs).map (fun p =>
        (p.1, count_matching_mutations patient p.2))).filter (fun p =>
          decide (p.2 = best_match_score patient (q :: qs)))).map Prod.fst =
        tied_lineages patient (q :: qs) := by
    rw [List.filter_map, List.map_map, tied_lineages]
    rfl
  simp only [classify_variant, hne, Bool.false_eq_true, if_false, hbest,
    hties]

/-- C3 counterexample: with catalogue `{"Other": []}` and one candidate
mutation, the best match count is 0 (below the default threshold 3) and
the label returned is the low-confidence one, yet the lineage name
`"Other"` does occur inside that label, contradicting the claim that the
label never contains the name of any catalogue lineage. -/
theorem c3_counterexample :
    classify_variant [Mutation.sub 1 (some 'A') 'C'] [("Other", [])] 3 =
      some ("Wuhan-like or Other (Low match)", 0) ∧
    best_match_score [Mutation.sub 1 (some 'A') 'C'] [("Other", [])] = 0 ∧
    List.IsInfix "Other".toList
      "Wuhan-like or Other (Low match)".toList := by
  refine ⟨by decide, by decide,
    "Wuhan-like or ".toList, " (Low match)".toList, by decide⟩

/-- C3 (amended): when the maximum per-lineage match count is strictly
below the threshold, `classify_variant` returns the fixed low-confidence
baseline-like label carrying that maximum; the label is a constant
string independent of the catalogue, so it never attributes the match to
a lineage (though a lineage name may coincidentally occur inside the
constant, as the counterexample shows). -/
theorem c3_low_match_label (patient : List Mutation)
    (variant_profiles : List (String × List Mutation)) (t : Nat)
    (hp : patient ≠ []) (hn : variant_profiles ≠ [])
    (hlt : best_match_score patient variant_profiles < t) :
    classify_variant patient variant_profiles t =
      some ("Wuhan-like or Other (Low match)",
        best_match_score patient variant_profiles) := by
  obtain ⟨q, qs, rfl⟩ := List.exists_cons_of_ne_nil hn
  rw [classify_variant_cons patient q qs t hp, if_pos hlt]

theorem c3_low_match_label_witness :
    classify_variant [Mutation.sub 1 (some 'A') 'C'] [("Alpha", [])] 3 =
      some ("Wuhan-like or Other (Low match)",
        best_match_score [Mutation.sub 1 (some 'A') 'C'] [("Alpha", [])]) :=
  c3_low_match_label [Mutation.sub 1 (some 'A') 'C'] [("Alpha", [])] 3
    (by decide) (by decide) (by decide)

/-- C4: when the best match count meets the threshold, the lineages
achieving exactly the best count are collected in catalogue iteration
order; with more than one tied lineage the label joins them with the tie
marker, and with exactly one the label is that lineage's name, in both
cases paired with the best count. -/
theorem c4_best_and_ties (patient : List Mutation)
    (variant_profiles : List (String × List Mutation)) (t : Nat)
    (hp : patient ≠ []) (hn : variant_profiles ≠ [])
    (hnd : (variant_profiles.map Prod.fst).Nodup)
    (ht : t ≤ best_match_score patient variant_profiles) :
    (1 < (tied_lineages patient variant_profiles).length →
      classify_variant patient variant_profiles t =
        some (String.intercalate " or "
          (tied_lineages patient variant_profiles) ++ " (tie)",
          best_match_score patient variant_profiles)) ∧
    ∀ name, tied_lineages patient variant_profiles = [name] →
      classify_variant patient variant_profiles t =
        some (name, best_match_score patient variant_profiles) := by
  obtain ⟨q, qs, rfl⟩ := List.exists_cons_of_ne_nil hn
  rw [classify_variant_cons patient q qs t hp, if_neg (not_lt.mpr ht)]
  constructor
  · intro h1
    rw [if_pos h1]
  · intro name hname
    rw [hname]
    simp

theorem c4_best_and_ties_witness :
    (1 < (tied_lineages [Mutation.sub 1 (some 'A') 'C']
        [("Alpha", [Mutation.sub 1 (some 'A') 'C']),
         ("Beta", [Mutation.sub 1 (some 'A') 'C'])]).length →
      classify_variant [Mutation.sub 1 (some 'A') 'C']
        [("Alpha", [Mutation.sub 1 (some 'A') 'C']),
         ("Beta", [Mutation.sub 1 (some 'A') 'C'])] 1 =
        some (String.intercalate " or "
          (tied_lineages [Mutation.sub 1 (some 'A') 'C']
            [("Alpha", [Mutation.sub 1 (some 'A') 'C']),
             ("Beta", [Mutation.sub 1 (some 'A') 'C'])]) ++ " (tie)",
          best_match_score [Mutation.sub 1 (some 'A') 'C']
            [("Alpha", [Mutation.sub 1 (some 'A') 'C']),
             ("Beta", [Mutation.sub 1 (some 'A') 'C'])])) ∧
    ∀ name, tied_lineages [Mutation.sub 1 (some 'A') 'C']
        [("Alpha", [Mutation.sub 1 (some 'A') 'C']),
         ("Beta", [Mutation.sub 1 (some 'A') 'C'])] = [name] →
      classify_variant [Mutation.sub 1 (some 'A') 'C']
        [("Alpha", [Mutation.sub 1 (some 'A') 'C']),
         ("Beta", [Mutation.sub 1 (some 'A') 'C'])] 1 =
        some (name, best_match_score [Mutation.sub 1 (some 'A') 'C']
          [("Alpha", [Mutation.sub 1 (some 'A') 'C']),
           ("Beta", [Mutation.sub 1 (some 'A') 'C'])]) :=
  c4_best_and_ties [Mutation.sub 1 (some 'A') 'C']
    [("Alpha", [Mutation.sub 1 (some 'A') 'C']),
     ("Beta", [Mutation.sub 1 (some 'A') 'C'])] 1
    (by decide) (by decide) (by decide) (by decide)

end CovidClassifier
